import Mathlib

/-!
# machsdb: the in-memory typed key-value store (package db)

A shallow embedding of `db/store.go`: the store's five operations (`Set`, `Get`, `Remove`,
`Keys`, `GetAtIndex`), the indexing algorithm `getItemAtIndex` and the index coercion
`indexToInt`.

Conventions of the embedding.

* A Go method on `*store` becomes a function that takes the store and returns its Go results
  paired with the store after the call (explicit state passing).
* A Go pair `(result, err)` becomes an `Except`: in every path of the source exactly one of the
  two is meaningful (`err == nil` or `result == nil`).
* `time.Now().UnixNano()` is an explicit argument `now`, the clock reading in nanoseconds.
* `interface{}` values are modelled by `Any`; the store never looks inside list or map elements.
* Stored `*Value` pointers are never nil (`Set` only stores freshly built values), so the
  mapping holds `Value`s; pointer aliasing between the caller and the store is not modelled.
* Go's `int` and `int64` are 64 bits wide. The only arithmetic in the package that can leave
  that range is the expiry instant computed by `Set`; it is wrapped explicitly (`wrapInt64`).
  In `getItemAtIndex` the sum `len(li) + i` is taken only for `i < 0`, where it cannot overflow.
-/

namespace db

/-! ## Go runtime values -/

/-- The kinds reported by `reflect.Value.Kind()` of the Go standard library. -/
inductive Kind where
  | Invalid | Bool | Int | Int8 | Int16 | Int32 | Int64
  | Uint | Uint8 | Uint16 | Uint32 | Uint64 | Uintptr
  | Float32 | Float64 | Complex64 | Complex128
  | Array | Chan | Func | Interface | Map | Pointer | Slice | String | Struct | UnsafePointer
  deriving DecidableEq, Repr

/-- A Go `interface{}` value, as far as the store can tell values apart: it type-asserts to
`int`, `string`, `[]interface{}` and `map[string]interface{}`, and otherwise only asks
`reflect` for the kind of the value and, for maps, the kind of the key type.

* `nil` is the nil interface (`reflect.ValueOf(nil).Kind() == reflect.Invalid`);
* `int`, `string`, `slice`, `map` are values whose dynamic type is exactly `int`, `string`,
  `[]interface{}`, `map[string]interface{}` (a Go map is given by its association list, the
  first binding of a key being the one in force);
* `other kind keyKind id` is a value of any other dynamic type (`float64`, `[]int`,
  `map[string]int`, `map[int]int`, `struct{}`, a named string type, ...): `kind` is what
  `reflect` reports for it, `keyKind` the kind of its key type when it is a map, and `id`
  tells such values apart. -/
inductive Any where
  | nil : Any
  | int (i : Int) : Any
  | string (s : String) : Any
  | slice (li : List Any) : Any
  | map (m : List (String × Any)) : Any
  | other (kind : Kind) (keyKind : Kind) (id : Nat) : Any

/-- The result of `reflect.ValueOf(value).Kind()`. -/
def Any.kind : Any → Kind
  | .nil => Kind.Invalid
  | .int _ => Kind.Int
  | .string _ => Kind.String
  | .slice _ => Kind.Slice
  | .map _ => Kind.Map
  | .other k _ _ => k

/-- The result of `reflect.TypeOf(value).Key().Kind()`; the source calls it on maps only. -/
def Any.keyKind : Any → Kind
  | .map _ => Kind.String
  | .other _ kk _ => kk
  | _ => Kind.Invalid

/-- The type assertion `x.(int)`. -/
def Any.assertInt : Any → Option Int
  | .int i => some i
  | _ => none

/-- The type assertion `x.(string)`. -/
def Any.assertString : Any → Option String
  | .string s => some s
  | _ => none

/-- The type assertion `x.([]interface{})`. -/
def Any.assertSlice : Any → Option (List Any)
  | .slice li => some li
  | _ => none

/-- The type assertion `x.(map[string]interface{})`. -/
def Any.assertMap : Any → Option (List (String × Any))
  | .map m => some m
  | _ => none

/-! ## The standard library functions the store calls -/

/-- The largest `int64`. -/
def maxInt64 : Int := 2 ^ 63 - 1

/-- The smallest `int64`. -/
def minInt64 : Int := -(2 ^ 63)

/-- Two's complement wrap-around of a mathematical integer into the `int64` range. -/
def wrapInt64 (x : Int) : Int := (x + 2 ^ 63) % 2 ^ 64 - 2 ^ 63

/-- The instant `time.Now().Add(d).UnixNano()` when `time.Now().UnixNano()` is `now`:
`Time.Add` adds the duration to the wall clock reading, and `UnixNano` computes
`sec * 1e9 + nsec` in `int64` arithmetic, which wraps around past the year 2262. -/
def addUnixNano (now d : Int) : Int := wrapInt64 (now + d)

/-- The value of a string of decimal digits; `none` when the string is empty or holds a
character that is not one of `0`..`9` (the digit loop of `strconv.ParseUint` in base 10). -/
def parseDigits (cs : List Char) : Option Nat :=
  match cs with
  | [] => none
  | _ =>
    cs.foldl
      (fun acc c =>
        match acc with
        | none => none
        | some n => if c.isDigit then some (n * 10 + (c.toNat - 48)) else none)
      (some 0)

/-- Go's `strconv.Atoi` on a 64-bit platform, `none` standing for a non-nil error: an optional
sign `+` or `-`, then one or more decimal digits and nothing else; the value has to fit
`int` (`-2^63 .. 2^63-1`), otherwise `Atoi` reports a range error. -/
def Atoi (s : String) : Option Int :=
  match s.data with
  | [] => none
  | c :: rest =>
    let neg : Bool := c == '-'
    let ds : List Char := if c == '-' || c == '+' then rest else c :: rest
    match parseDigits ds with
    | none => none
    | some un =>
      if !neg && (2 : Int) ^ 63 ≤ (un : Int) then none
      else if neg && (2 : Int) ^ 63 < (un : Int) then none
      else some (if neg then -(un : Int) else (un : Int))

/-- Go's `strconv.Itoa`, the decimal rendering of an `int`: the decimal digits of the absolute
value, most significant first and without leading zeros (`0` for zero), after a `-` when the
number is negative. -/
def Itoa (i : Int) : String :=
  if i < 0 then ⟨'-' :: Nat.toDigits 10 i.natAbs⟩ else ⟨Nat.toDigits 10 i.toNat⟩

/-! ## The data model -/

/-- Modelled from the spec: the tag type of `Value` and its constants `STRING`, `LIST` and
`MAP` are declared in a file of package db that is not among the sources. The spec gives a
value exactly three variants (string, list, map) and lets `getItemAtIndex` meet "any other
stored tag"; `unknown n` stands for those other tags. The three constants are pairwise
distinct, as they label different cases of one `switch`. -/
inductive ValueType where
  | STRING | LIST | MAP
  | unknown (n : Nat)
  deriving DecidableEq, Repr

/-- Modelled from the spec: the struct `Value` is declared in a file of package db that is not
among the sources; the tests build it positionally as `Value{Type, Data, Expires}` and `Set`
fills `Expires` from an `int64` of Unix nanoseconds, `0` meaning "never". The field `Type` is
spelled `Typ`, `Type` being a keyword here. -/
structure Value where
  Typ : ValueType
  Data : Any
  Expires : Int

/-- Modelled from the spec: the error values `ErrInvalidTTL`, ... are declared in a file of
package db that is not among the sources; the spec lists them as a closed taxonomy of seven
distinct errors. -/
inductive Err where
  | ErrInvalidTTL
  | ErrInvalidValueType
  | ErrKeyNotFound
  | ErrIndexAccess
  | ErrIllegalIndexType
  | ErrNonIntegerSubkey
  | ErrConversionError
  deriving DecidableEq, Repr

/-- The struct `store`: a Go map from string keys to values. A Go map holds each key at most
once, which is what an association list without duplicate keys records. The field `store` of
the source is spelled `tbl`, so that it does not shadow the name of the struct. -/
structure store where
  tbl : AList (fun _ : String => Value)

/-- The function `newStore`: the store with the empty map. -/
def newStore : store := ⟨∅⟩

/-! ## The operations -/

/-- The method `store.Set`, called when the clock reads `now`. -/
def store.Set (s : store) (key : String) (value : Any) (expires : Int) (now : Int) :
    Except Err Value × store :=
  if expires < 0 then (.error .ErrInvalidTTL, s)
  else
    let targetType : Except Err ValueType :=
      match value.kind with
      | Kind.String => .ok .STRING
      | Kind.Slice => .ok .LIST
      | Kind.Map =>
        if value.keyKind ≠ Kind.String then .error .ErrInvalidValueType else .ok .MAP
      | _ => .error .ErrInvalidValueType
    match targetType with
    | .error e => (.error e, s)
    | .ok t =>
      let expireNs : Int := if expires > 0 then addUnixNano now expires else 0
      let newData : Value := { Typ := t, Data := value, Expires := expireNs }
      (.ok newData, ⟨s.tbl.insert key newData⟩)

/-- The method `store.Get`. -/
def store.Get (s : store) (key : String) : Except Err Value × store :=
  match s.tbl.lookup key with
  | none => (.error .ErrKeyNotFound, s)
  | some result => (.ok result, s)

/-- The method `store.Remove`; its only result is the error, which is always nil (`none`). -/
def store.Remove (s : store) (key : String) : Option Err × store :=
  (none, ⟨s.tbl.erase key⟩)

/-- The method `store.Keys`, called when the clock reads `now`. The loop ranges over the keys
of the map (in an order Go leaves unspecified) and looks each one up again; a key the loop
yields is always bound, so the `none` branch is never taken. -/
def store.Keys (s : store) (now : Int) : Except Err (List String) × store :=
  let result := s.tbl.keys.filter fun k =>
    match s.tbl.lookup k with
    | some v => v.Expires == 0 || decide (v.Expires > now)
    | none => false
  (.ok result, s)

/-- The function `indexToInt`. -/
def indexToInt (index : Any) : Except Err Int :=
  match index.assertInt with
  | some idx => .ok idx
  | none =>
    match index.assertString with
    | none => .error .ErrIllegalIndexType
    | some strIndex =>
      match Atoi strIndex with
      | none => .error .ErrNonIntegerSubkey
      | some idx => .ok idx

/-- The method `Value.getItemAtIndex`; `j` is the variable `i` after the source has added
`len(li)` to a negative index. -/
def Value.getItemAtIndex (v : Value) (index : Any) : Except Err Any :=
  match v.Typ with
  | .STRING => .error .ErrIndexAccess
  | .LIST =>
    match indexToInt index with
    | .error err => .error err
    | .ok i =>
      match v.Data.assertSlice with
      | none => .error .ErrConversionError
      | some li =>
        let j : Int := if i < 0 then (li.length : Int) + i else i
        if h : j ≥ (li.length : Int) ∨ j < 0 then .error .ErrIndexAccess
        else .ok (li.get ⟨j.toNat, by omega⟩)
  | .MAP =>
    match index.assertString with
    | none => .error .ErrIllegalIndexType
    | some i =>
      match v.Data.assertMap with
      | none => .error .ErrConversionError
      | some m =>
        match m.lookup i with
        | none => .error .ErrIndexAccess
        | some result => .ok result
  | .unknown _ => .error .ErrInvalidValueType

/-- The method `store.GetAtIndex`, called when the clock reads `now`. -/
def store.GetAtIndex (s : store) (key : String) (index : Any) (now : Int) :
    Except Err Any × store :=
  match s.tbl.lookup key with
  | none => (.error .ErrKeyNotFound, s)
  | some value =>
    if value.Expires ≠ 0 ∧ value.Expires < now then (.error .ErrKeyNotFound, s)
    else (value.getItemAtIndex index, s)

/-! ## Reachable stores -/

/-- The stores that `newStore` followed by any sequence of `Set` and `Remove` calls can produce,
every value handed to `Set` satisfying `P`. A call of `Set` that fails is part of such a
sequence too; it leaves the store as it was. -/
inductive ReachableVia (P : Any → Prop) : store → Prop where
  | empty : ReachableVia P newStore
  | set (s : store) (key : String) (value : Any) (expires now : Int) :
      ReachableVia P s → P value → ReachableVia P (s.Set key value expires now).2
  | remove (s : store) (key : String) :
      ReachableVia P s → ReachableVia P (s.Remove key).2

/-- The stores reachable from the empty store by any sequence of `Set` and `Remove` calls. -/
def Reachable (s : store) : Prop := ReachableVia (fun _ => True) s

/-- The payload of a value is untyped: when `reflect` reports a slice it is a `[]interface{}`,
and when it reports a map it is a `map[string]interface{}`. Strings and values that `Set`
rejects are not constrained. -/
def Any.untypedElements (value : Any) : Prop :=
  (value.kind = Kind.Slice → ∃ li, value = .slice li) ∧
    (value.kind = Kind.Map → ∃ m, value = .map m)

/-- The tag of a stored value agrees with the shape of its payload: a `LIST` holds a
`[]interface{}` and a `MAP` holds a `map[string]interface{}`. -/
def Value.tagMatchesPayload (v : Value) : Prop :=
  (v.Typ = .LIST → ∃ li, v.Data = .slice li) ∧ (v.Typ = .MAP → ∃ m, v.Data = .map m)

/-! ## The data of the test suite -/

/-- The list `[]interface{}{"One", "Two", "Three"}` of `TestStore_GetByIndex`. -/
def testList : List Any := [.string "One", .string "Two", .string "Three"]

/-- The store that `TestStore_GetByIndex` builds with four calls of `Set` (no expiry), the
clock reading `now` throughout. -/
def testStore (now : Int) : store :=
  let s1 := (newStore.Set "string" (.string "String") 0 now).2
  let s2 := (s1.Set "list" (.slice testList) 0 now).2
  let s3 := (s2.Set "list2" (.slice testList) 0 now).2
  (s3.Set "map" (.map [("One", .string "42"), ("Two", .string "")]) 0 now).2

/-- The value `Set` stores under `"list"` in `testStore`. -/
def testListValue : Value := { Typ := .LIST, Data := .slice testList, Expires := 0 }

/-- The store after `Set("k", []interface{}{"One", "Two", "Three"}, 500)` on the empty store
at clock reading `1000`: the entry expires at the instant `1500`. -/
def expiringStore : store := (newStore.Set "k" (.slice testList) 500 1000).2

/-- The value `Set` stores under `"k"` in `expiringStore`. -/
def expiringValue : Value := { Typ := .LIST, Data := .slice testList, Expires := 1500 }

/-- The store after `Set("k", v, 0)` on the empty store, `v` being a slice whose dynamic type is
not `[]interface{}` (a `[]int`, say). -/
def typedSliceStore : store :=
  (newStore.Set "k" (.other Kind.Slice Kind.Invalid 0) 0 1000).2

/-- The store after `Set("k", v, 0)` on the empty store, `v` being a map with string keys whose
dynamic type is not `map[string]interface{}` (a `map[string]int`, say). -/
def typedMapStore : store :=
  (newStore.Set "k" (.other Kind.Map Kind.String 0) 0 1000).2

/-- The call `Set("k", "v", ttl)` on the empty store with a ttl of 9e18 ns (some 285 years,
a valid `time.Duration`) at the clock reading 1.7e18 ns (November 2023). -/
def farFutureSet : Except Err Value × store :=
  newStore.Set "k" (.string "v") 9000000000000000000 1700000000000000000

/-- The call `Set("k", "v", 500)` on the empty store at a clock reading of 500 ns before the
Unix epoch. -/
def epochSet : Except Err Value × store :=
  newStore.Set "k" (.string "v") 500 (-500)

/-- The value `Set` stores under `"map"` in `testStore`. -/
def testMapValue : Value :=
  { Typ := .MAP, Data := .map [("One", .string "42"), ("Two", .string "")], Expires := 0 }

/-- The value `Set` stores under `"string"` in `testStore`. -/
def testStringValue : Value := { Typ := .STRING, Data := .string "String", Expires := 0 }

/-! ## Shared lemmas -/

/-- When the key is bound, `GetAtIndex` answers by the expiry test of the source. -/
theorem GetAtIndex_of_lookup (s : store) (key : String) (index : Any) (now : Int) (v : Value)
    (hk : s.tbl.lookup key = some v) :
    (s.GetAtIndex key index now).1 =
      if v.Expires ≠ 0 ∧ v.Expires < now then .error .ErrKeyNotFound
      else v.getItemAtIndex index := by
  unfold store.GetAtIndex
  rw [hk]
  dsimp only
  split_ifs <;> rfl

/-- When the key is bound to a value that is not expired, `GetAtIndex` is `getItemAtIndex`. -/
theorem GetAtIndex_of_live (s : store) (key : String) (index : Any) (now : Int) (v : Value)
    (hk : s.tbl.lookup key = some v) (hlive : v.Expires = 0 ∨ now < v.Expires) :
    (s.GetAtIndex key index now).1 = v.getItemAtIndex index := by
  rw [GetAtIndex_of_lookup s key index now v hk, if_neg]
  omega

/-- On a list value, an index that coerces to `i` outside `-N .. N-1` is an `IndexAccess`
error. -/
theorem getItemAtIndex_list_out (v : Value) (li : List Any) (index : Any) (i : Int)
    (ht : v.Typ = .LIST) (hd : v.Data = .slice li) (hi : indexToInt index = .ok i)
    (hout : i ≥ (li.length : Int) ∨ i < -(li.length : Int)) :
    v.getItemAtIndex index = .error .ErrIndexAccess := by
  unfold Value.getItemAtIndex
  simp only [ht, hi, hd, Any.assertSlice]
  rw [dif_pos]
  split_ifs <;> omega

/-- On a list value, an index that coerces to `i` with `0 <= i < N` yields element `i`. -/
theorem getItemAtIndex_list_nonneg (v : Value) (li : List Any) (index : Any) (i : Int)
    (ht : v.Typ = .LIST) (hd : v.Data = .slice li) (hi : indexToInt index = .ok i)
    (h0 : 0 ≤ i) (hN : i < (li.length : Int)) :
    ∃ x, li.get? i.toNat = some x ∧ v.getItemAtIndex index = .ok x := by
  have hlt : i.toNat < li.length := by omega
  refine ⟨li.get ⟨i.toNat, hlt⟩, List.get?_eq_get hlt, ?_⟩
  unfold Value.getItemAtIndex
  simp only [ht, hi, hd, Any.assertSlice]
  split_ifs <;> first | rfl | omega

/-- On a list value, an index that coerces to `i` with `-N <= i < 0` yields element `N + i`. -/
theorem getItemAtIndex_list_neg (v : Value) (li : List Any) (index : Any) (i : Int)
    (ht : v.Typ = .LIST) (hd : v.Data = .slice li) (hi : indexToInt index = .ok i)
    (hN : -(li.length : Int) ≤ i) (h0 : i < 0) :
    ∃ x, li.get? ((li.length : Int) + i).toNat = some x ∧ v.getItemAtIndex index = .ok x := by
  have hlt : ((li.length : Int) + i).toNat < li.length := by omega
  refine ⟨li.get ⟨((li.length : Int) + i).toNat, hlt⟩, List.get?_eq_get hlt, ?_⟩
  unfold Value.getItemAtIndex
  simp only [ht, hi, hd, Any.assertSlice]
  split_ifs <;> first | rfl | omega

/-! ## Indexed access into lists -/

/-- C1: for a list of length `N` stored under a key that is present and not expired,
`GetAtIndex` with the integer index `i` fails with `IndexAccess` exactly when `i >= N` or
`i < -N`; for `0 <= i < N` it returns the element at position `i`, for `-N <= i < 0` the
element at position `N + i`; on the empty list every integer index fails with `IndexAccess`. -/
theorem GetAtIndex_list_int (s : store) (key : String) (now : Int) (v : Value)
    (li : List Any) (i : Int)
    (hk : s.tbl.lookup key = some v) (hlive : v.Expires = 0 ∨ now < v.Expires)
    (ht : v.Typ = .LIST) (hd : v.Data = .slice li) :
    ((s.GetAtIndex key (.int i) now).1 = .error .ErrIndexAccess ↔
        (i ≥ (li.length : Int) ∨ i < -(li.length : Int))) ∧
      (0 ≤ i → i < (li.length : Int) →
        ∃ x, li.get? i.toNat = some x ∧ (s.GetAtIndex key (.int i) now).1 = .ok x) ∧
      (-(li.length : Int) ≤ i → i < 0 →
        ∃ x, li.get? ((li.length : Int) + i).toNat = some x ∧
          (s.GetAtIndex key (.int i) now).1 = .ok x) ∧
      (li = [] → (s.GetAtIndex key (.int i) now).1 = .error .ErrIndexAccess) := by
  have hG := GetAtIndex_of_live s key (.int i) now v hk hlive
  have hi : indexToInt (.int i) = .ok i := rfl
  have hout := getItemAtIndex_list_out v li (.int i) i ht hd hi
  have hpos := getItemAtIndex_list_nonneg v li (.int i) i ht hd hi
  have hneg := getItemAtIndex_list_neg v li (.int i) i ht hd hi
  rw [hG]
  refine ⟨⟨fun herr => ?_, hout⟩, hpos, hneg, fun hnil => hout ?_⟩
  · by_contra hcon
    rcases lt_or_le i 0 with h0 | h0
    · obtain ⟨x, -, hx⟩ := hneg (by omega) h0
      rw [hx] at herr
      cases herr
    · obtain ⟨x, -, hx⟩ := hpos h0 (by omega)
      rw [hx] at herr
      cases herr
  · subst hnil
    simp only [List.length_nil, Int.ofNat_zero, Int.neg_zero] at *
    omega

/-- C1, applied to the list of the test suite at index `-1` and clock reading `5`. -/
theorem GetAtIndex_list_int_witness :
    (testStore 5).tbl.lookup "list" = some testListValue ∧
      (testListValue.Expires = 0 ∨ (5 : Int) < testListValue.Expires) ∧
      testListValue.Typ = .LIST ∧ testListValue.Data = .slice testList ∧
      (((testStore 5).GetAtIndex "list" (.int (-1)) 5).1 = .error .ErrIndexAccess ↔
        ((-1 : Int) ≥ (testList.length : Int) ∨ (-1 : Int) < -(testList.length : Int))) ∧
      ((0 : Int) ≤ -1 → (-1 : Int) < (testList.length : Int) →
        ∃ x, testList.get? (-1 : Int).toNat = some x ∧
          ((testStore 5).GetAtIndex "list" (.int (-1)) 5).1 = .ok x) ∧
      (-(testList.length : Int) ≤ -1 → (-1 : Int) < 0 →
        ∃ x, testList.get? ((testList.length : Int) + (-1)).toNat = some x ∧
          ((testStore 5).GetAtIndex "list" (.int (-1)) 5).1 = .ok x) ∧
      (testList = [] → ((testStore 5).GetAtIndex "list" (.int (-1)) 5).1 = .error .ErrIndexAccess) :=
  ⟨rfl, Or.inl rfl, rfl, rfl,
    GetAtIndex_list_int (testStore 5) "list" 5 testListValue testList (-1) rfl
      (Or.inl rfl) rfl rfl⟩

/-- C2: for a list of length `N` stored under a present, non-expired key and `1 <= i <= N`,
`GetAtIndex(k, -i)` succeeds and gives the same element as `GetAtIndex(k, N - i)`; and
`GetAtIndex(k, -1)` is the last element of a non-empty list. -/
theorem GetAtIndex_negative_index (s : store) (key : String) (now : Int) (v : Value)
    (li : List Any) (i : Int)
    (hk : s.tbl.lookup key = some v) (hlive : v.Expires = 0 ∨ now < v.Expires)
    (ht : v.Typ = .LIST) (hd : v.Data = .slice li)
    (h1 : 1 ≤ i) (hN : i ≤ (li.length : Int)) :
    (∃ x, (s.GetAtIndex key (.int (-i)) now).1 = .ok x ∧
        (s.GetAtIndex key (.int ((li.length : Int) - i)) now).1 = .ok x) ∧
      ∃ last, li.getLast? = some last ∧ (s.GetAtIndex key (.int (-1)) now).1 = .ok last := by
  have hG := fun idx => GetAtIndex_of_live s key idx now v hk hlive
  constructor
  · obtain ⟨x, hx, hres⟩ :=
      getItemAtIndex_list_neg v li (.int (-i)) (-i) ht hd rfl (by omega) (by omega)
    obtain ⟨y, hy, hres2⟩ :=
      getItemAtIndex_list_nonneg v li (.int ((li.length : Int) - i)) ((li.length : Int) - i)
        ht hd rfl (by omega) (by omega)
    have hxy : x = y := by
      have he : ((li.length : Int) + -i).toNat = ((li.length : Int) - i).toNat := by
        rw [Int.sub_eq_add_neg]
      rw [he, hy] at hx
      exact (Option.some.inj hx).symm
    exact ⟨x, by rw [hG, hres], by rw [hG, hres2, hxy]⟩
  · obtain ⟨x, hx, hres⟩ :=
      getItemAtIndex_list_neg v li (.int (-1)) (-1) ht hd rfl (by omega) (by omega)
    refine ⟨x, ?_, by rw [hG, hres]⟩
    have he : ((li.length : Int) + -1).toNat = li.length - 1 := by omega
    rw [he] at hx
    rw [List.getLast?_eq_getElem?, ← hx, List.get?_eq_getElem?]

/-- C2, applied to the list of the test suite with `i = 2` and clock reading `5`. -/
theorem GetAtIndex_negative_index_witness :
    (testStore 5).tbl.lookup "list" = some testListValue ∧
      (testListValue.Expires = 0 ∨ (5 : Int) < testListValue.Expires) ∧
      testListValue.Typ = .LIST ∧ testListValue.Data = .slice testList ∧
      (1 : Int) ≤ 2 ∧ (2 : Int) ≤ (testList.length : Int) ∧
      (∃ x, ((testStore 5).GetAtIndex "list" (.int (-2)) 5).1 = .ok x ∧
        ((testStore 5).GetAtIndex "list" (.int ((testList.length : Int) - 2)) 5).1 = .ok x) ∧
      ∃ last, testList.getLast? = some last ∧
        ((testStore 5).GetAtIndex "list" (.int (-1)) 5).1 = .ok last :=
  ⟨rfl, Or.inl rfl, rfl, rfl, by decide, by decide,
    GetAtIndex_negative_index (testStore 5) "list" 5 testListValue testList 2 rfl (Or.inl rfl)
      rfl rfl (by decide) (by decide)⟩

/-! ## Expiry on the read paths -/

/-- Membership in the list that `Keys` returns. -/
theorem mem_Keys (s : store) (now : Int) (k : String) (ks : List String)
    (h : (s.Keys now).1 = .ok ks) :
    k ∈ ks ↔ ∃ v, s.tbl.lookup k = some v ∧ (v.Expires = 0 ∨ v.Expires > now) := by
  have hks := Except.ok.inj h
  subst hks
  rw [List.mem_filter]
  constructor
  · rintro ⟨-, hc⟩
    cases hl : s.tbl.lookup k with
    | none => simp [hl] at hc
    | some v =>
      refine ⟨v, rfl, ?_⟩
      simpa [hl] using hc
  · rintro ⟨v, hv, hc⟩
    refine ⟨?_, ?_⟩
    · rw [← AList.mem_keys, ← AList.lookup_isSome, hv]
      rfl
    · simpa [hv] using hc

/-- Inside the `int64` range, wrapping changes nothing. -/
theorem wrapInt64_of_fits (x : Int) (hlo : minInt64 ≤ x) (hhi : x ≤ maxInt64) :
    wrapInt64 x = x := by
  unfold wrapInt64
  unfold minInt64 at hlo
  unfold maxInt64 at hhi
  omega

/-- C3: at the clock reading equal to the expiry instant the claim wants `KeyNotFound`, but
`GetAtIndex` still answers: the entry set at `1000` with a ttl of `500` expires at `1500`, and
`GetAtIndex("k", 0)` at `1500` returns the first element. -/
theorem GetAtIndex_at_expiry_instant :
    expiringStore.tbl.lookup "k" = some expiringValue ∧
      expiringValue.Expires ≠ 0 ∧ expiringValue.Expires ≤ 1500 ∧
      (expiringStore.GetAtIndex "k" (.int 0) 1500).1 = .ok (.string "One") ∧
      (expiringStore.GetAtIndex "k" (.int 0) 1501).1 = .error .ErrKeyNotFound :=
  ⟨rfl, by decide, by decide, rfl, rfl⟩

/-- C4: `Keys` succeeds and lists each key at most once; a key is listed exactly when it is
bound in the mapping to a value that never expires (`Expires == 0`) or whose expiry instant is
strictly greater than the clock reading. -/
theorem Keys_lists_live_keys (s : store) (now : Int) :
    ∃ ks, (s.Keys now).1 = .ok ks ∧ ks.Nodup ∧
      ∀ k, k ∈ ks ↔ ∃ v, s.tbl.lookup k = some v ∧ (v.Expires = 0 ∨ v.Expires > now) := by
  exact ⟨_, rfl, s.tbl.keys_nodup.filter _, fun k => mem_Keys s now k _ rfl⟩

/-- C5: at the clock reading equal to the expiry instant the two read paths disagree: the key
of `expiringStore` is left out by `Keys` at `1500`, yet `GetAtIndex` on it does not fail with
`KeyNotFound` (it returns the element), and `Get` returns the stored value. -/
theorem Keys_GetAtIndex_disagree_at_expiry_instant :
    (expiringStore.Keys 1500).1 = .ok [] ∧
      (expiringStore.GetAtIndex "k" (.int 0) 1500).1 ≠ .error .ErrKeyNotFound ∧
      (expiringStore.Get "k").1 = .ok expiringValue := by
  refine ⟨rfl, ?_, rfl⟩
  have h : (expiringStore.GetAtIndex "k" (.int 0) 1500).1 = .ok (.string "One") := rfl
  rw [h]
  exact fun hne => Except.noConfusion hne

/-! ## Tag and payload -/

/-- The method `Set` as a cascade of tests: the ttl first, then the kind of the value. -/
theorem Set_eq (s : store) (key : String) (value : Any) (expires now : Int) :
    s.Set key value expires now =
      if expires < 0 then (.error .ErrInvalidTTL, s)
      else if value.kind = Kind.String ∨ value.kind = Kind.Slice ∨
          (value.kind = Kind.Map ∧ value.keyKind = Kind.String) then
        (.ok ⟨if value.kind = Kind.String then .STRING
                else if value.kind = Kind.Slice then .LIST else .MAP,
              value, if expires > 0 then addUnixNano now expires else 0⟩,
          ⟨s.tbl.insert key
            ⟨if value.kind = Kind.String then .STRING
                else if value.kind = Kind.Slice then .LIST else .MAP,
              value, if expires > 0 then addUnixNano now expires else 0⟩⟩)
      else (.error .ErrInvalidValueType, s) := by
  unfold store.Set
  by_cases hneg : expires < 0
  · rw [if_pos hneg, if_pos hneg]
  · rw [if_neg hneg, if_neg hneg]
    cases hk : value.kind <;> try simp
    by_cases hkk : value.keyKind = Kind.String <;> simp [hkk]

/-- What `Set` returns on success, and the store it leaves. -/
theorem Set_ok_inv (s s' : store) (key : String) (value : Any) (expires now : Int)
    (v : Value) (h : s.Set key value expires now = (.ok v, s')) :
    0 ≤ expires ∧ v.Data = value ∧
      v.Expires = (if expires > 0 then addUnixNano now expires else 0) ∧
      s' = ⟨s.tbl.insert key v⟩ ∧
      v.Typ = (if value.kind = Kind.String then .STRING
                else if value.kind = Kind.Slice then .LIST else .MAP) ∧
      (value.kind = Kind.String ∨ value.kind = Kind.Slice ∨
        (value.kind = Kind.Map ∧ value.keyKind = Kind.String)) := by
  rw [Set_eq] at h
  by_cases h1 : expires < 0
  · rw [if_pos h1] at h
    cases h
  · rw [if_neg h1] at h
    by_cases h2 : value.kind = Kind.String ∨ value.kind = Kind.Slice ∨
        (value.kind = Kind.Map ∧ value.keyKind = Kind.String)
    · rw [if_pos h2] at h
      obtain ⟨hv, hs⟩ := Prod.mk.inj h
      have hv' := Except.ok.inj hv
      subst hv'
      subst hs
      exact ⟨by omega, rfl, rfl, rfl, rfl, h2⟩
    · rw [if_neg h2] at h
      cases h

/-- The store after any call of `Set` is the store before it, or the store before it with one
binding replaced by a value that `Set` built from its argument. -/
theorem Set_store_cases (s : store) (key : String) (value : Any) (expires now : Int) :
    (s.Set key value expires now).2 = s ∨
      ∃ v, s.Set key value expires now = (.ok v, (s.Set key value expires now).2) := by
  rw [Set_eq]
  by_cases h1 : expires < 0
  · rw [if_pos h1]
    exact Or.inl rfl
  · rw [if_neg h1]
    by_cases h2 : value.kind = Kind.String ∨ value.kind = Kind.Slice ∨
        (value.kind = Kind.Map ∧ value.keyKind = Kind.String)
    · rw [if_pos h2]
      exact Or.inr ⟨_, rfl⟩
    · rw [if_neg h2]
      exact Or.inl rfl

/-- The errors of `indexToInt` are `IllegalIndexType` and `NonIntegerSubkey` only. -/
theorem indexToInt_error (index : Any) (e : Err) (h : indexToInt index = .error e) :
    e = .ErrIllegalIndexType ∨ e = .ErrNonIntegerSubkey := by
  unfold indexToInt at h
  cases h1 : index.assertInt with
  | some i => rw [h1] at h; cases h
  | none =>
    rw [h1] at h
    cases h2 : index.assertString with
    | none => rw [h2] at h; cases h; exact Or.inl rfl
    | some str =>
      rw [h2] at h
      dsimp only at h
      cases h3 : Atoi str with
      | none => rw [h3] at h; cases h; exact Or.inr rfl
      | some i => rw [h3] at h; cases h

/-- The method `getItemAtIndex` never reports `KeyNotFound`. -/
theorem getItemAtIndex_ne_KeyNotFound (v : Value) (index : Any) :
    v.getItemAtIndex index ≠ .error .ErrKeyNotFound := by
  intro h
  unfold Value.getItemAtIndex at h
  cases ht : v.Typ with
  | STRING => rw [ht] at h; cases h
  | unknown n => rw [ht] at h; cases h
  | LIST =>
    rw [ht] at h
    cases hi : indexToInt index with
    | error e =>
      rw [hi] at h
      have he := indexToInt_error index e hi
      cases h
      rcases he with he | he <;> cases he
    | ok i =>
      rw [hi] at h
      cases hd : v.Data.assertSlice with
      | none => rw [hd] at h; cases h
      | some li =>
        rw [hd] at h
        dsimp only at h
        split_ifs at h <;> cases h
  | MAP =>
    rw [ht] at h
    cases hi : index.assertString with
    | none => rw [hi] at h; cases h
    | some i =>
      rw [hi] at h
      cases hd : v.Data.assertMap with
      | none => rw [hd] at h; cases h
      | some m =>
        rw [hd] at h
        dsimp only at h
        cases hl : m.lookup i with
        | none => rw [hl] at h; cases h
        | some x => rw [hl] at h; cases h

/-- When the tag of a value agrees with its payload, `getItemAtIndex` never reports
`ConversionError`. -/
theorem getItemAtIndex_ne_ConversionError (v : Value) (index : Any)
    (hv : v.tagMatchesPayload) :
    v.getItemAtIndex index ≠ .error .ErrConversionError := by
  intro h
  unfold Value.getItemAtIndex at h
  cases ht : v.Typ with
  | STRING => rw [ht] at h; cases h
  | unknown n => rw [ht] at h; cases h
  | LIST =>
    rw [ht] at h
    obtain ⟨li, hli⟩ := hv.1 ht
    cases hi : indexToInt index with
    | error e =>
      rw [hi] at h
      have he := indexToInt_error index e hi
      cases h
      rcases he with he | he <;> cases he
    | ok i =>
      rw [hi, hli] at h
      simp only [Any.assertSlice] at h
      split_ifs at h <;> cases h
  | MAP =>
    rw [ht] at h
    obtain ⟨m, hm⟩ := hv.2 ht
    cases hi : index.assertString with
    | none => rw [hi] at h; cases h
    | some i =>
      rw [hi, hm] at h
      simp only [Any.assertMap] at h
      cases hl : m.lookup i with
      | none => rw [hl] at h; cases h
      | some x => rw [hl] at h; cases h

/-- The value `Set` builds from an input with untyped elements has a tag that agrees with its
payload. -/
theorem Set_tagMatchesPayload (s s' : store) (key : String) (value : Any) (expires now : Int)
    (v : Value) (h : s.Set key value expires now = (.ok v, s'))
    (hP : value.untypedElements) : v.tagMatchesPayload := by
  obtain ⟨-, hd, -, -, ht, hk⟩ := Set_ok_inv s s' key value expires now v h
  rw [Value.tagMatchesPayload, hd, ht]
  by_cases h1 : value.kind = Kind.String
  · rw [if_pos h1]
    exact ⟨fun hc => (by cases hc), fun hc => by cases hc⟩
  · rw [if_neg h1]
    by_cases h2 : value.kind = Kind.Slice
    · rw [if_pos h2]
      exact ⟨fun _ => hP.1 h2, fun hc => by cases hc⟩
    · rw [if_neg h2]
      rcases hk with hk | hk | hk
      · exact absurd hk h1
      · exact absurd hk h2
      · exact ⟨fun hc => (by cases hc), fun _ => hP.2 hk.1⟩

/-- In a store built by `Set` and `Remove` from inputs with untyped elements, the tag of every
stored value agrees with its payload. -/
theorem ReachableVia_tagMatchesPayload (s : store)
    (hr : ReachableVia Any.untypedElements s) (k : String) (v : Value)
    (hk : s.tbl.lookup k = some v) : v.tagMatchesPayload := by
  induction hr generalizing k v with
  | empty =>
    rw [newStore, AList.lookup_empty] at hk
    cases hk
  | set s0 key value expires now _ hP ih =>
    rcases Set_store_cases s0 key value expires now with hsame | ⟨w, hw⟩
    · rw [hsame] at hk
      exact ih k v hk
    · obtain ⟨-, -, -, hs, -, -⟩ := Set_ok_inv s0 _ key value expires now w hw
      rw [hs] at hk
      by_cases hkk : k = key
      · subst hkk
        rw [AList.lookup_insert] at hk
        cases hk
        exact Set_tagMatchesPayload s0 _ k value expires now v hw hP
      · rw [AList.lookup_insert_ne hkk] at hk
        exact ih k v hk
  | remove s0 key _ ih =>
    by_cases hkk : k = key
    · subst hkk
      rw [store.Remove, AList.lookup_erase] at hk
      cases hk
    · rw [store.Remove, AList.lookup_erase_ne hkk] at hk
      exact ih k v hk

/-- The store of the test suite is built by `Set` from inputs with untyped elements. -/
theorem testStore_reachable (now : Int) : ReachableVia Any.untypedElements (testStore now) := by
  unfold testStore
  refine ReachableVia.set _ _ _ _ _ (ReachableVia.set _ _ _ _ _ (ReachableVia.set _ _ _ _ _
    (ReachableVia.set _ _ _ _ _ ReachableVia.empty ?_) ?_) ?_) ?_
  · exact ⟨fun h => (by cases h), fun h => by cases h⟩
  · exact ⟨fun _ => ⟨_, rfl⟩, fun h => by cases h⟩
  · exact ⟨fun _ => ⟨_, rfl⟩, fun h => by cases h⟩
  · exact ⟨fun h => (by cases h), fun _ => ⟨_, rfl⟩⟩

/-- C6, against the claim as stated: `Set` accepts a slice whose dynamic type is not
`[]interface{}` and tags it `LIST`, and a string-keyed map whose dynamic type is not
`map[string]interface{}` and tags it `MAP`; on the stores so reached `GetAtIndex` returns
`ConversionError`. -/
theorem GetAtIndex_ConversionError_reachable :
    (newStore.Set "k" (.other Kind.Slice Kind.Invalid 0) 0 1000).1 =
        .ok ⟨.LIST, .other Kind.Slice Kind.Invalid 0, 0⟩ ∧
      Reachable typedSliceStore ∧
      (typedSliceStore.GetAtIndex "k" (.int 0) 1000).1 = .error .ErrConversionError ∧
      (newStore.Set "k" (.other Kind.Map Kind.String 0) 0 1000).1 =
        .ok ⟨.MAP, .other Kind.Map Kind.String 0, 0⟩ ∧
      Reachable typedMapStore ∧
      (typedMapStore.GetAtIndex "k" (.string "a") 1000).1 = .error .ErrConversionError :=
  ⟨rfl, ReachableVia.set _ _ _ _ _ ReachableVia.empty trivial, rfl,
    rfl, ReachableVia.set _ _ _ _ _ ReachableVia.empty trivial, rfl⟩

/-- C6, amended: in every store reachable from the empty store by `Set` and `Remove` calls
whose slice inputs are `[]interface{}` and whose map inputs are `map[string]interface{}`,
the tag of every stored value agrees with its payload, and `GetAtIndex` never returns
`ConversionError`, whatever the key, the index and the clock reading. -/
theorem GetAtIndex_ne_ConversionError (s : store)
    (hr : ReachableVia Any.untypedElements s) (key : String) (index : Any) (now : Int) :
    (∀ v, s.tbl.lookup key = some v → v.tagMatchesPayload) ∧
      (s.GetAtIndex key index now).1 ≠ .error .ErrConversionError := by
  refine ⟨fun v hv => ReachableVia_tagMatchesPayload s hr key v hv, ?_⟩
  cases hk : s.tbl.lookup key with
  | none =>
    unfold store.GetAtIndex
    rw [hk]
    exact fun h => by cases h
  | some v =>
    rw [GetAtIndex_of_lookup s key index now v hk]
    split_ifs
    · exact fun h => by cases h
    · exact getItemAtIndex_ne_ConversionError v index
        (ReachableVia_tagMatchesPayload s hr key v hk)

/-- C6 amended, applied to the store of the test suite. -/
theorem GetAtIndex_ne_ConversionError_witness :
    ReachableVia Any.untypedElements (testStore 5) ∧
      (∀ v, (testStore 5).tbl.lookup "list" = some v → v.tagMatchesPayload) ∧
      ((testStore 5).GetAtIndex "list" (.int 0) 5).1 ≠ .error .ErrConversionError :=
  ⟨testStore_reachable 5,
    GetAtIndex_ne_ConversionError (testStore 5) (testStore_reachable 5) "list" (.int 0) 5⟩

/-! ## The write path -/

/-- C7: with a ttl that is not negative, `Set` succeeds with a value tagged `STRING` for an
input of kind string, `LIST` for an input of kind slice and `MAP` for a map whose key type is
of kind string, the value carrying the input as its `Data`; for every other input (the nil
interface, a struct, a map keyed by a non-string type among them) it fails with
`InvalidValueType`. -/
theorem Set_type_dispatch (s : store) (key : String) (value : Any) (ttl now : Int)
    (httl : 0 ≤ ttl) :
    (value.kind = Kind.String →
        ∃ v, (s.Set key value ttl now).1 = .ok v ∧ v.Typ = .STRING ∧ v.Data = value) ∧
      (value.kind = Kind.Slice →
        ∃ v, (s.Set key value ttl now).1 = .ok v ∧ v.Typ = .LIST ∧ v.Data = value) ∧
      (value.kind = Kind.Map → value.keyKind = Kind.String →
        ∃ v, (s.Set key value ttl now).1 = .ok v ∧ v.Typ = .MAP ∧ v.Data = value) ∧
      (value.kind ≠ Kind.String → value.kind ≠ Kind.Slice →
        ¬ (value.kind = Kind.Map ∧ value.keyKind = Kind.String) →
        (s.Set key value ttl now).1 = .error .ErrInvalidValueType) ∧
      (value = .nil ∨ value.kind = Kind.Struct ∨
          (value.kind = Kind.Map ∧ value.keyKind ≠ Kind.String) →
        (s.Set key value ttl now).1 = .error .ErrInvalidValueType) := by
  have hneg : ¬ ttl < 0 := by omega
  have hother : value.kind ≠ Kind.String → value.kind ≠ Kind.Slice →
      ¬ (value.kind = Kind.Map ∧ value.keyKind = Kind.String) →
      (s.Set key value ttl now).1 = .error .ErrInvalidValueType := by
    intro h1 h2 h3
    rw [Set_eq, if_neg hneg, if_neg]
    rintro (h | h | h)
    · exact h1 h
    · exact h2 h
    · exact h3 h
  refine ⟨fun h => ?_, fun h => ?_, fun h hk => ?_, hother, ?_⟩
  · rw [Set_eq, if_neg hneg, if_pos (Or.inl h)]
    exact ⟨_, rfl, if_pos h, rfl⟩
  · rw [Set_eq, if_neg hneg, if_pos (Or.inr (Or.inl h))]
    refine ⟨_, rfl, ?_, rfl⟩
    dsimp only
    rw [if_neg (by rw [h]; decide), if_pos h]
  · rw [Set_eq, if_neg hneg, if_pos (Or.inr (Or.inr ⟨h, hk⟩))]
    refine ⟨_, rfl, ?_, rfl⟩
    dsimp only
    rw [if_neg (by rw [h]; decide), if_neg (by rw [h]; decide)]
  · rintro (h | h | ⟨h, hk⟩)
    · subst h
      exact hother (by decide) (by decide) (fun hc => absurd hc.1 (by decide))
    · exact hother (by rw [h]; decide) (by rw [h]; decide)
        (fun hc => absurd (h.symm.trans hc.1) (by decide))
    · exact hother (by rw [h]; decide) (by rw [h]; decide) (fun hc => hk hc.2)

/-- C7, applied to the string `"Something"` of `TestStore_set` with no ttl. -/
theorem Set_type_dispatch_witness :
    (0 : Int) ≤ 0 ∧
      ∃ v, (newStore.Set "string" (.string "Something") 0 1000).1 = .ok v ∧
        v.Typ = .STRING ∧ v.Data = .string "Something" :=
  ⟨le_refl 0,
    (Set_type_dispatch newStore "string" (.string "Something") 0 1000 (le_refl 0)).1 rfl⟩

/-- C8: `Set` fails with `InvalidTTL` exactly when the ttl is negative, whatever the key, the
value (also one of an invalid shape), the store and the clock reading. -/
theorem Set_InvalidTTL_iff (s : store) (key : String) (value : Any) (ttl now : Int) :
    (s.Set key value ttl now).1 = .error .ErrInvalidTTL ↔ ttl < 0 := by
  rw [Set_eq]
  constructor
  · intro h
    by_contra hneg
    rw [if_neg hneg] at h
    by_cases h2 : value.kind = Kind.String ∨ value.kind = Kind.Slice ∨
        (value.kind = Kind.Map ∧ value.keyKind = Kind.String)
    · rw [if_pos h2] at h
      cases h
    · rw [if_neg h2] at h
      cases h
  · intro h
    rw [if_pos h]

/-- C9, against the claim as stated: with a ttl of 9e18 ns set at the clock reading 1.7e18 ns
the instant `now + ttl` is beyond the largest `int64`, so `Expires` (an `int64`) cannot hold
it: the stored instant is negative, and `Keys` does not list the key even at the time of the
call. Besides, a positive ttl that makes `now + ttl` the instant `0` stores the value that
means "never expires", and the key stays listed at and after `now + ttl`. -/
theorem Set_expiry_overflow :
    (0 : Int) < 9000000000000000000 ∧ (9000000000000000000 : Int) ≤ maxInt64 ∧
      (1700000000000000000 : Int) ≤ maxInt64 ∧
      maxInt64 < 1700000000000000000 + 9000000000000000000 ∧
      farFutureSet.1 = .ok ⟨.STRING, .string "v", -7746744073709551616⟩ ∧
      (farFutureSet.2.Keys 1700000000000000000).1 = .ok [] ∧
      epochSet.1 = .ok ⟨.STRING, .string "v", 0⟩ ∧
      (epochSet.2.Keys 0).1 = .ok ["k"] :=
  ⟨by decide, by decide, by decide, by decide, rfl, rfl, rfl, rfl⟩

/-- C9, amended: after a successful `Set(key, value, ttl)` at the clock reading `now`: when
`ttl == 0` the stored value has `Expires == 0`, the key is listed by `Keys` and is not
rejected as `KeyNotFound` by `GetAtIndex` at every time; when `ttl > 0` and `now + ttl` is an
instant that fits `int64` and is not `0`, the stored value has `Expires == now + ttl`, the key
is listed by `Keys` at every `t` with `now <= t < now + ttl` and at no `t >= now + ttl`. -/
theorem Set_expiry (s s' : store) (key : String) (value : Any) (ttl now : Int) (v : Value)
    (h : s.Set key value ttl now = (.ok v, s')) :
    (ttl = 0 →
        v.Expires = 0 ∧
          ∀ t, (∃ ks, (s'.Keys t).1 = .ok ks ∧ key ∈ ks) ∧
            ∀ index, (s'.GetAtIndex key index t).1 ≠ .error .ErrKeyNotFound) ∧
      (0 < ttl → minInt64 ≤ now + ttl → now + ttl ≤ maxInt64 → now + ttl ≠ 0 →
        v.Expires = now + ttl ∧
          ∀ t, (now ≤ t → t < now + ttl → ∃ ks, (s'.Keys t).1 = .ok ks ∧ key ∈ ks) ∧
            (now + ttl ≤ t → ∃ ks, (s'.Keys t).1 = .ok ks ∧ key ∉ ks)) := by
  obtain ⟨-, -, he, hs, -, -⟩ := Set_ok_inv s s' key value ttl now v h
  have hl : s'.tbl.lookup key = some v := by rw [hs]; exact AList.lookup_insert _
  constructor
  · intro h0
    have hexp : v.Expires = 0 := by rw [he, if_neg (by omega)]
    refine ⟨hexp, fun t => ⟨⟨_, rfl, ?_⟩, fun index => ?_⟩⟩
    · exact (mem_Keys s' t key _ rfl).mpr ⟨v, hl, Or.inl hexp⟩
    · rw [GetAtIndex_of_live s' key index t v hl (Or.inl hexp)]
      exact getItemAtIndex_ne_KeyNotFound v index
  · intro hpos hlo hhi hne
    have hexp : v.Expires = now + ttl := by
      rw [he, if_pos hpos, addUnixNano, wrapInt64_of_fits _ hlo hhi]
    refine ⟨hexp, fun t => ⟨fun _ hlt => ⟨_, rfl, ?_⟩, fun hge => ⟨_, rfl, ?_⟩⟩⟩
    · exact (mem_Keys s' t key _ rfl).mpr ⟨v, hl, Or.inr (by omega)⟩
    · intro hmem
      obtain ⟨w, hw, hc⟩ := (mem_Keys s' t key _ rfl).mp hmem
      rw [hl] at hw
      cases hw
      omega

/-- C9 amended, applied to `Set("k", list, 500)` on the empty store at the clock reading
`1000`. -/
theorem Set_expiry_witness :
    newStore.Set "k" (.slice testList) 500 1000 = (.ok expiringValue, expiringStore) ∧
      (0 : Int) < 500 ∧ minInt64 ≤ 1000 + 500 ∧ (1000 : Int) + 500 ≤ maxInt64 ∧
      (1000 : Int) + 500 ≠ 0 ∧
      expiringValue.Expires = 1000 + 500 ∧
      ∀ t, ((1000 : Int) ≤ t → t < 1000 + 500 →
          ∃ ks, (expiringStore.Keys t).1 = .ok ks ∧ "k" ∈ ks) ∧
        ((1000 : Int) + 500 ≤ t → ∃ ks, (expiringStore.Keys t).1 = .ok ks ∧ "k" ∉ ks) :=
  ⟨rfl, by decide, by decide, by decide, by decide,
    (Set_expiry newStore expiringStore "k" (.slice testList) 500 1000 expiringValue rfl).2
      (by decide) (by decide) (by decide) (by decide)⟩

/-- C10: after a successful `Set(key, value, ttl)`, on any store, `Get(key)` returns exactly
the value that `Set` returned, and for every other key `Get` returns what it returned before
the call. -/
theorem Set_then_Get (s s' : store) (key : String) (value : Any) (ttl now : Int) (v : Value)
    (h : s.Set key value ttl now = (.ok v, s')) :
    (s'.Get key).1 = .ok v ∧ ∀ k, k ≠ key → (s'.Get k).1 = (s.Get k).1 := by
  obtain ⟨-, -, -, hs, -, -⟩ := Set_ok_inv s s' key value ttl now v h
  subst hs
  constructor
  · unfold store.Get
    rw [AList.lookup_insert]
  · intro k hk
    unfold store.Get
    rw [AList.lookup_insert_ne hk]
    cases s.tbl.lookup k <;> rfl

/-- C10, applied to a `Set` that overwrites the entry `"list"` of the test suite's store with a
string. -/
theorem Set_then_Get_witness :
    (testStore 5).Set "list" (.string "new") 0 7 =
        (.ok ⟨.STRING, .string "new", 0⟩, ((testStore 5).Set "list" (.string "new") 0 7).2) ∧
      (((testStore 5).Set "list" (.string "new") 0 7).2.Get "list").1 =
        .ok ⟨.STRING, .string "new", 0⟩ ∧
      ∀ k, k ≠ "list" →
        (((testStore 5).Set "list" (.string "new") 0 7).2.Get k).1 = ((testStore 5).Get k).1 :=
  ⟨rfl, Set_then_Get (testStore 5) _ "list" (.string "new") 0 7 ⟨.STRING, .string "new", 0⟩ rfl⟩

/-! ## Decimal renderings -/

/-- The step of the digit loop of `parseDigits`. -/
theorem parseDigits_cons_eq (c : Char) (cs : List Char) :
    parseDigits (c :: cs) =
      (c :: cs).foldl
        (fun acc c =>
          match acc with
          | none => none
          | some n => if c.isDigit then some (n * 10 + (c.toNat - 48)) else none)
        (some 0) := rfl

/-- The character of a decimal digit is a digit and has the value of the digit. -/
theorem digitChar_spec (m : Nat) (hm : m < 10) :
    (Nat.digitChar m).isDigit = true ∧ (Nat.digitChar m).toNat - 48 = m := by
  interval_cases m <;> decide

/-- One more digit character at the end of a run multiplies what the digit loop has read by
ten and adds the digit. -/
theorem digitLoop_snoc (ds : List Char) (k d : Nat) (hd : d < 10)
    (hk : ds.foldl
        (fun acc c =>
          match acc with
          | none => none
          | some k => if c.isDigit then some (k * 10 + (c.toNat - 48)) else none)
        (some 0) = some k) :
    (ds ++ [Nat.digitChar d]).foldl
        (fun acc c =>
          match acc with
          | none => none
          | some k => if c.isDigit then some (k * 10 + (c.toNat - 48)) else none)
        (some 0) = some (k * 10 + d) := by
  rw [List.foldl_append, hk]
  simp only [List.foldl_cons, List.foldl_nil, (digitChar_spec d hd).1, if_true,
    (digitChar_spec d hd).2]

/-- With enough fuel, `Nat.toDigitsCore` in base 10 puts in front of its accumulator a
non-empty run of digit characters that the digit loop reads back as the number. -/
theorem toDigitsCore_parse (fuel n : Nat) (acc : List Char) (hfuel : n < fuel) :
    ∃ ds : List Char, ds ≠ [] ∧ ds ++ acc = Nat.toDigitsCore 10 fuel n acc ∧
      (∀ c ∈ ds, c.isDigit = true) ∧
      ds.foldl
        (fun acc c =>
          match acc with
          | none => none
          | some k => if c.isDigit then some (k * 10 + (c.toNat - 48)) else none)
        (some 0) = some n := by
  induction fuel generalizing n acc
  case zero => omega
  case succ fuel ih =>
    have hlast : n % 10 < 10 := Nat.mod_lt _ (by decide)
    unfold Nat.toDigitsCore
    rcases Nat.eq_zero_or_pos (n / 10) with hq | hq
    · have hsmall : n % 10 = n := by omega
      refine ⟨[] ++ [Nat.digitChar (n % 10)], by simp, by simp [hq], ?_, ?_⟩
      · intro c hc
        rw [List.nil_append, List.mem_singleton] at hc
        exact hc ▸ (digitChar_spec _ hlast).1
      · have h0 := digitLoop_snoc [] 0 (n % 10) hlast rfl
        rw [h0]
        congr 1
        omega
    · have hq0 : ¬ n / 10 = 0 := by omega
      have hless : n / 10 < fuel := by omega
      obtain ⟨ds, -, hds, hdig, hval⟩ := ih _ (Nat.digitChar (n % 10) :: acc) hless
      refine ⟨ds ++ [Nat.digitChar (n % 10)], by simp, ?_, ?_, ?_⟩
      · simp only [hq0, if_false]
        rw [← hds, List.append_assoc]
        rfl
      · intro c hc
        rcases List.mem_append.mp hc with hc | hc
        · exact hdig c hc
        · rw [List.mem_singleton] at hc
          exact hc ▸ (digitChar_spec _ hlast).1
      · rw [digitLoop_snoc ds (n / 10) (n % 10) hlast hval]
        congr 1
        omega

/-- The decimal digits of a number start with a digit character and are read back by
`parseDigits` as the number. -/
theorem parseDigits_toDigits (n : Nat) :
    ∃ c cs, Nat.toDigits 10 n = c :: cs ∧ c.isDigit = true ∧
      parseDigits (c :: cs) = some n := by
  obtain ⟨ds, hne, hds, hdig, hval⟩ := toDigitsCore_parse (n + 1) n [] (Nat.lt_succ_self n)
  rw [List.append_nil] at hds
  cases ds with
  | nil => exact absurd rfl hne
  | cons c cs =>
    exact ⟨c, cs, hds.symm, hdig c (List.mem_cons_self c cs),
      by rw [parseDigits_cons_eq, hval]⟩

/-- The function `Atoi` reads the decimal rendering of an `int` back as that `int`. -/
theorem Atoi_Itoa (i : Int) (hlo : minInt64 ≤ i) (hhi : i ≤ maxInt64) :
    Atoi (Itoa i) = some i := by
  unfold minInt64 at hlo
  unfold maxInt64 at hhi
  by_cases hneg : i < 0
  · obtain ⟨c, cs, hcs, -, hp⟩ := parseDigits_toDigits i.natAbs
    have hle : ¬ ((2 : Int) ^ 63 < (i.natAbs : Int)) := by omega
    have hval : -(i.natAbs : Int) = i := by omega
    simp [Itoa, hneg, Atoi, hcs, hp, hle, hval]
    rw [abs_of_neg hneg]
    constructor <;> omega
  · obtain ⟨c, cs, hcs, hc, hp⟩ := parseDigits_toDigits i.toNat
    have hminus : (c == '-') = false := by
      rw [beq_eq_false_iff_ne]
      intro h
      rw [h] at hc
      exact absurd hc (by decide)
    have hplus : (c == '+') = false := by
      rw [beq_eq_false_iff_ne]
      intro h
      rw [h] at hc
      exact absurd hc (by decide)
    have hle : ¬ ((2 : Int) ^ 63 ≤ (i.toNat : Int)) := by omega
    have hval : (i.toNat : Int) = i := by omega
    simp [Itoa, hneg, Atoi, hcs, hp, hle, hval, hminus, hplus]
    omega

/-! ## Plain reads and removal -/

/-- C11: `Get` fails with `KeyNotFound` exactly when the key is absent from the mapping, and
with no other error; when the key is bound it returns the stored value as it is, whatever the
expiry instant of that value and whatever the clock reads. -/
theorem Get_KeyNotFound_iff (s : store) (key : String) :
    ((s.Get key).1 = .error .ErrKeyNotFound ↔ s.tbl.lookup key = none) ∧
      (∀ e, (s.Get key).1 = .error e → e = .ErrKeyNotFound) ∧
      ∀ v, s.tbl.lookup key = some v → (s.Get key).1 = .ok v := by
  unfold store.Get
  cases hl : s.tbl.lookup key with
  | none =>
    refine ⟨⟨fun _ => rfl, fun _ => rfl⟩, fun e he => ?_, fun v hv => (by cases hv)⟩
    cases he
    rfl
  | some w =>
    refine ⟨⟨fun h => (by cases h), fun h => (by cases h)⟩, fun e he => (by cases he),
      fun v hv => ?_⟩
    cases hv
    rfl

/-- C11, applied to the entry of `expiringStore`, which expires at `1500`: `Get` returns it,
no clock reading being involved. -/
theorem Get_KeyNotFound_iff_witness :
    expiringStore.tbl.lookup "k" = some expiringValue ∧
      (expiringStore.Get "k").1 = .ok expiringValue ∧
      ((expiringStore.Get "absent").1 = .error .ErrKeyNotFound ↔
        expiringStore.tbl.lookup "absent" = none) :=
  ⟨rfl, (Get_KeyNotFound_iff expiringStore "k").2.2 expiringValue rfl,
    (Get_KeyNotFound_iff expiringStore "absent").1⟩

/-- Removing a key that is not bound leaves the store as it is. -/
theorem Remove_of_absent (s : store) (key : String) (h : s.tbl.lookup key = none) :
    (s.Remove key).2 = s := by
  have hmem : key ∉ s.tbl.entries.keys := by
    rw [AList.lookup_eq_none, AList.mem_keys] at h
    exact h
  have hent : (s.tbl.erase key).entries = s.tbl.entries := List.kerase_of_not_mem_keys hmem
  unfold store.Remove
  rw [AList.ext hent]

/-- C12: `Remove(key)` returns no error whether or not the key is bound; afterwards `Get(key)`
fails with `KeyNotFound`, every other key is bound to exactly the value it was bound to
before, and the keys of the mapping are the former keys without `key`. -/
theorem Remove_spec (s : store) (key : String) :
    (s.Remove key).1 = none ∧
      ((s.Remove key).2.Get key).1 = .error .ErrKeyNotFound ∧
      (∀ k, k ≠ key →
        (s.Remove key).2.tbl.lookup k = s.tbl.lookup k ∧
          ((s.Remove key).2.Get k).1 = (s.Get k).1) ∧
      (s.Remove key).2.tbl.keys = s.tbl.keys.erase key := by
  refine ⟨rfl, ?_, fun k hk => ?_, AList.keys_erase key s.tbl⟩
  · unfold store.Get store.Remove
    rw [AList.lookup_erase]
  · have hl : (s.Remove key).2.tbl.lookup k = s.tbl.lookup k := AList.lookup_erase_ne hk
    refine ⟨hl, ?_⟩
    unfold store.Get
    rw [hl]
    cases s.tbl.lookup k <;> rfl

/-- C12, applied to the removal of `"list"` from the store of the test suite: `"map"` keeps
its value. -/
theorem Remove_spec_witness :
    ((testStore 5).Remove "list").1 = none ∧
      (((testStore 5).Remove "list").2.Get "list").1 = .error .ErrKeyNotFound ∧
      "map" ≠ "list" ∧
      (((testStore 5).Remove "list").2.Get "map").1 = ((testStore 5).Get "map").1 ∧
      ((testStore 5).Get "map").1 = .ok testMapValue :=
  ⟨(Remove_spec (testStore 5) "list").1, (Remove_spec (testStore 5) "list").2.1, by decide,
    ((Remove_spec (testStore 5) "list").2.2.1 "map" (by decide)).2, rfl⟩

/-- C13: `Remove` is idempotent: on a store where the key is not bound it leaves the mapping
exactly as it is, and removing a key twice gives the same result and the same mapping as
removing it once. -/
theorem Remove_idempotent (s : store) (key : String) :
    (s.tbl.lookup key = none → s.Remove key = (none, s)) ∧
      (s.Remove key).2.Remove key = s.Remove key := by
  have habs : ∀ t : store, t.tbl.lookup key = none → t.Remove key = (none, t) := by
    intro t ht
    have h2 := Remove_of_absent t key ht
    exact Prod.ext rfl h2
  refine ⟨habs s, ?_⟩
  have hgone : (s.Remove key).2.tbl.lookup key = none := AList.lookup_erase key s.tbl
  rw [habs _ hgone]
  rfl

/-- C13, applied to the key `"invalid"` of `TestStore_remove`, which the store of the test
suite does not bind. -/
theorem Remove_idempotent_witness :
    (testStore 5).tbl.lookup "invalid" = none ∧
      (testStore 5).Remove "invalid" = (none, testStore 5) ∧
      ((testStore 5).Remove "list").2.Remove "list" = (testStore 5).Remove "list" :=
  ⟨rfl, (Remove_idempotent (testStore 5) "invalid").1 rfl,
    (Remove_idempotent (testStore 5) "list").2⟩

/-! ## Indexed access into maps and strings, and index coercion -/

/-- On a map value, `getItemAtIndex` with a string index is the lookup in the map. -/
theorem getItemAtIndex_map_string (v : Value) (m : List (String × Any)) (str : String)
    (ht : v.Typ = .MAP) (hd : v.Data = .map m) :
    v.getItemAtIndex (.string str) =
      match m.lookup str with
      | none => .error .ErrIndexAccess
      | some x => .ok x := by
  unfold Value.getItemAtIndex
  simp only [ht, hd, Any.assertString, Any.assertMap]

/-- On a map value, `getItemAtIndex` rejects an index that is not a string before it looks at
the payload. -/
theorem getItemAtIndex_map_nonstring (v : Value) (index : Any)
    (ht : v.Typ = .MAP) (hi : index.assertString = none) :
    v.getItemAtIndex index = .error .ErrIllegalIndexType := by
  unfold Value.getItemAtIndex
  simp only [ht, hi]

/-- On a list value, `getItemAtIndex` reports the error of `indexToInt` before it looks at the
payload. -/
theorem getItemAtIndex_list_coercion_error (v : Value) (index : Any) (e : Err)
    (ht : v.Typ = .LIST) (hi : indexToInt index = .error e) :
    v.getItemAtIndex index = .error e := by
  unfold Value.getItemAtIndex
  simp only [ht, hi]

/-- C14: for a map stored under a present, non-expired key, `GetAtIndex` fails with
`IllegalIndexType` for every index that is not a string (integers among them), with
`IndexAccess` for a string that is not a key of the map, and returns the mapped element for a
string that is a key of the map, whatever that element is (an empty string or nil too). -/
theorem GetAtIndex_map (s : store) (key : String) (now : Int) (v : Value)
    (m : List (String × Any))
    (hk : s.tbl.lookup key = some v) (hlive : v.Expires = 0 ∨ now < v.Expires)
    (ht : v.Typ = .MAP) (hd : v.Data = .map m) :
    (∀ index, index.assertString = none →
        (s.GetAtIndex key index now).1 = .error .ErrIllegalIndexType) ∧
      (∀ i, (s.GetAtIndex key (.int i) now).1 = .error .ErrIllegalIndexType) ∧
      (∀ str, m.lookup str = none →
        (s.GetAtIndex key (.string str) now).1 = .error .ErrIndexAccess) ∧
      (∀ str x, m.lookup str = some x → (s.GetAtIndex key (.string str) now).1 = .ok x) := by
  have hG := fun index => GetAtIndex_of_live s key index now v hk hlive
  refine ⟨fun index hi => ?_, fun i => ?_, fun str hl => ?_, fun str x hl => ?_⟩
  · rw [hG, getItemAtIndex_map_nonstring v index ht hi]
  · rw [hG, getItemAtIndex_map_nonstring v (.int i) ht rfl]
  · rw [hG, getItemAtIndex_map_string v m str ht hd, hl]
  · rw [hG, getItemAtIndex_map_string v m str ht hd, hl]

/-- C14, applied to the map of the test suite: the key `"Two"` is bound to the empty string,
`"Three"` is not a key, and `1` is not a string. -/
theorem GetAtIndex_map_witness :
    (testStore 5).tbl.lookup "map" = some testMapValue ∧
      (testMapValue.Expires = 0 ∨ (5 : Int) < testMapValue.Expires) ∧
      ((testStore 5).GetAtIndex "map" (.string "Two") 5).1 = .ok (.string "") ∧
      ((testStore 5).GetAtIndex "map" (.string "Three") 5).1 = .error .ErrIndexAccess ∧
      ((testStore 5).GetAtIndex "map" (.int 1) 5).1 = .error .ErrIllegalIndexType :=
  have h := GetAtIndex_map (testStore 5) "map" 5 testMapValue
    [("One", .string "42"), ("Two", .string "")] rfl (Or.inl rfl) rfl rfl
  ⟨rfl, Or.inl rfl, h.2.2.2 "Two" (.string "") rfl, h.2.2.1 "Three" rfl, h.2.1 1⟩

/-- C15: for a string value stored under a present, non-expired key, `GetAtIndex` fails with
`IndexAccess` for every index of any type, hence never with `IllegalIndexType` or
`NonIntegerSubkey`. -/
theorem GetAtIndex_string (s : store) (key : String) (now : Int) (v : Value) (index : Any)
    (hk : s.tbl.lookup key = some v) (hlive : v.Expires = 0 ∨ now < v.Expires)
    (ht : v.Typ = .STRING) :
    (s.GetAtIndex key index now).1 = .error .ErrIndexAccess ∧
      (s.GetAtIndex key index now).1 ≠ .error .ErrIllegalIndexType ∧
      (s.GetAtIndex key index now).1 ≠ .error .ErrNonIntegerSubkey := by
  have hres : (s.GetAtIndex key index now).1 = .error .ErrIndexAccess := by
    rw [GetAtIndex_of_live s key index now v hk hlive]
    unfold Value.getItemAtIndex
    simp only [ht]
  rw [hres]
  exact ⟨rfl, fun h => (by cases h), fun h => (by cases h)⟩

/-- C15, applied to the string of the test suite with a floating-point index. -/
theorem GetAtIndex_string_witness :
    (testStore 5).tbl.lookup "string" = some testStringValue ∧
      (testStringValue.Expires = 0 ∨ (5 : Int) < testStringValue.Expires) ∧
      testStringValue.Typ = .STRING ∧
      ((testStore 5).GetAtIndex "string" (.other Kind.Float64 Kind.Invalid 0) 5).1 =
        .error .ErrIndexAccess :=
  ⟨rfl, Or.inl rfl, rfl,
    (GetAtIndex_string (testStore 5) "string" 5 testStringValue
      (.other Kind.Float64 Kind.Invalid 0) rfl (Or.inl rfl) rfl).1⟩

/-- C16: `indexToInt` returns an `int` index unchanged; for a string index it returns the
integer that `Atoi` parses (the decimal rendering of every `int` parses to that `int`), and
fails with `NonIntegerSubkey` when the string does not parse, the empty string included; for
an index that is neither an `int` nor a string (a floating-point number, say) it fails with
`IllegalIndexType`; and on a list value under a present, non-expired key `GetAtIndex` returns
these coercion errors whatever the payload of the list. -/
theorem indexToInt_coercion (s : store) (key : String) (now : Int) (v : Value) (index : Any)
    (hk : s.tbl.lookup key = some v) (hlive : v.Expires = 0 ∨ now < v.Expires)
    (ht : v.Typ = .LIST) :
    (∀ i, indexToInt (.int i) = .ok i) ∧
      (∀ str n, Atoi str = some n → indexToInt (.string str) = .ok n) ∧
      (∀ i, minInt64 ≤ i → i ≤ maxInt64 → indexToInt (.string (Itoa i)) = .ok i) ∧
      (∀ str, Atoi str = none → indexToInt (.string str) = .error .ErrNonIntegerSubkey) ∧
      indexToInt (.string "") = .error .ErrNonIntegerSubkey ∧
      (index.assertInt = none → index.assertString = none →
        indexToInt index = .error .ErrIllegalIndexType) ∧
      (∀ kind keyKind id,
        indexToInt (.other kind keyKind id) = .error .ErrIllegalIndexType) ∧
      (∀ e, indexToInt index = .error e → (s.GetAtIndex key index now).1 = .error e) := by
  have hstr : ∀ str n, Atoi str = some n → indexToInt (.string str) = .ok n := by
    intro str n h
    simp only [indexToInt, Any.assertInt, Any.assertString, h]
  refine ⟨fun i => rfl, hstr, fun i hlo hhi => hstr _ i (Atoi_Itoa i hlo hhi),
    fun str h => ?_, rfl, fun h1 h2 => ?_, fun _ _ _ => rfl, fun e he => ?_⟩
  · simp only [indexToInt, Any.assertInt, Any.assertString, h]
  · simp only [indexToInt, h1, h2]
  · rw [GetAtIndex_of_live s key index now v hk hlive,
      getItemAtIndex_list_coercion_error v index e ht he]

/-- C16, applied to the list of the test suite with the indexes of `TestStore_GetByIndex`:
the empty string and the floating-point number. -/
theorem indexToInt_coercion_witness :
    (testStore 5).tbl.lookup "list" = some testListValue ∧
      (testListValue.Expires = 0 ∨ (5 : Int) < testListValue.Expires) ∧
      testListValue.Typ = .LIST ∧
      indexToInt (.string "") = .error .ErrNonIntegerSubkey ∧
      ((testStore 5).GetAtIndex "list" (.string "") 5).1 = .error .ErrNonIntegerSubkey :=
  have h := indexToInt_coercion (testStore 5) "list" 5 testListValue (.string "") rfl
    (Or.inl rfl) rfl
  ⟨rfl, Or.inl rfl, rfl, h.2.2.2.2.1, h.2.2.2.2.2.2.2 _ h.2.2.2.2.1⟩

/-- C17: when the key holds a list value, `GetAtIndex` with the decimal rendering of an `int`
`i` as index has exactly the outcome (the same element or the same error) of `GetAtIndex`
with `i` itself, whatever the store, the clock reading and the payload. -/
theorem GetAtIndex_decimal_string (s : store) (key : String) (now : Int) (v : Value)
    (i : Int) (hlo : minInt64 ≤ i) (hhi : i ≤ maxInt64)
    (hk : s.tbl.lookup key = some v) (ht : v.Typ = .LIST) :
    (s.GetAtIndex key (.string (Itoa i)) now).1 = (s.GetAtIndex key (.int i) now).1 := by
  have hi : indexToInt (.string (Itoa i)) = indexToInt (.int i) := by
    simp only [indexToInt, Any.assertInt, Any.assertString, Atoi_Itoa i hlo hhi]
  rw [GetAtIndex_of_lookup s key _ now v hk, GetAtIndex_of_lookup s key _ now v hk]
  unfold Value.getItemAtIndex
  simp only [ht, hi]

/-- C17, applied to the list of the test suite with `i = -2`, as in `TestStore_GetByIndex`. -/
theorem GetAtIndex_decimal_string_witness :
    minInt64 ≤ -2 ∧ (-2 : Int) ≤ maxInt64 ∧
      (testStore 5).tbl.lookup "list" = some testListValue ∧ testListValue.Typ = .LIST ∧
      Itoa (-2) = "-2" ∧
      ((testStore 5).GetAtIndex "list" (.string (Itoa (-2))) 5).1 =
        ((testStore 5).GetAtIndex "list" (.int (-2)) 5).1 :=
  ⟨by decide, by decide, rfl, rfl, by decide,
    GetAtIndex_decimal_string (testStore 5) "list" 5 testListValue (-2) (by decide) (by decide)
      rfl rfl⟩

/-! ## The store invariant and the frame of the operations -/

/-- The value `Set` builds carries one of the three tags. -/
theorem Set_validTag (s s' : store) (key : String) (value : Any) (expires now : Int)
    (v : Value) (h : s.Set key value expires now = (.ok v, s')) :
    v.Typ = .STRING ∨ v.Typ = .LIST ∨ v.Typ = .MAP := by
  obtain ⟨-, -, -, -, ht, -⟩ := Set_ok_inv s s' key value expires now v h
  rw [ht]
  by_cases h1 : value.kind = Kind.String
  · rw [if_pos h1]
    exact Or.inl rfl
  · rw [if_neg h1]
    by_cases h2 : value.kind = Kind.Slice
    · rw [if_pos h2]
      exact Or.inr (Or.inl rfl)
    · rw [if_neg h2]
      exact Or.inr (Or.inr rfl)

/-- In a store built by `Set` and `Remove`, every stored value carries one of the three
tags. -/
theorem ReachableVia_validTag (P : Any → Prop) (s : store) (hr : ReachableVia P s)
    (k : String) (v : Value) (hk : s.tbl.lookup k = some v) :
    v.Typ = .STRING ∨ v.Typ = .LIST ∨ v.Typ = .MAP := by
  induction hr generalizing k v with
  | empty =>
    rw [newStore, AList.lookup_empty] at hk
    cases hk
  | set s0 key value expires now _ _ ih =>
    rcases Set_store_cases s0 key value expires now with hsame | ⟨w, hw⟩
    · rw [hsame] at hk
      exact ih k v hk
    · obtain ⟨-, -, -, hs, -, -⟩ := Set_ok_inv s0 _ key value expires now w hw
      rw [hs] at hk
      by_cases hkk : k = key
      · subst hkk
        rw [AList.lookup_insert] at hk
        cases hk
        exact Set_validTag s0 _ k value expires now v hw
      · rw [AList.lookup_insert_ne hkk] at hk
        exact ih k v hk
  | remove s0 key _ ih =>
    by_cases hkk : k = key
    · subst hkk
      rw [store.Remove, AList.lookup_erase] at hk
      cases hk
    · rw [store.Remove, AList.lookup_erase_ne hkk] at hk
      exact ih k v hk

/-- On a value that carries one of the three tags, `getItemAtIndex` never reports
`InvalidValueType`. -/
theorem getItemAtIndex_ne_InvalidValueType (v : Value) (index : Any)
    (hv : v.Typ = .STRING ∨ v.Typ = .LIST ∨ v.Typ = .MAP) :
    v.getItemAtIndex index ≠ .error .ErrInvalidValueType := by
  intro h
  unfold Value.getItemAtIndex at h
  rcases hv with ht | ht | ht
  · rw [ht] at h
    cases h
  · rw [ht] at h
    cases hi : indexToInt index with
    | error e =>
      rw [hi] at h
      have he := indexToInt_error index e hi
      cases h
      rcases he with he | he <;> cases he
    | ok i =>
      rw [hi] at h
      cases hd : v.Data.assertSlice with
      | none => rw [hd] at h; cases h
      | some li =>
        rw [hd] at h
        dsimp only at h
        split_ifs at h <;> cases h
  · rw [ht] at h
    cases hi : index.assertString with
    | none => rw [hi] at h; cases h
    | some i =>
      rw [hi] at h
      cases hd : v.Data.assertMap with
      | none => rw [hd] at h; cases h
      | some m =>
        rw [hd] at h
        dsimp only at h
        cases hl : m.lookup i with
        | none => rw [hl] at h; cases h
        | some x => rw [hl] at h; cases h

/-- The store of the test suite is reachable from the empty store. -/
theorem testStore_Reachable (now : Int) : Reachable (testStore now) := by
  unfold testStore
  exact ReachableVia.set _ _ _ _ _ (ReachableVia.set _ _ _ _ _ (ReachableVia.set _ _ _ _ _
    (ReachableVia.set _ _ _ _ _ ReachableVia.empty trivial) trivial) trivial) trivial

/-- C18: in every store reachable from the empty store by any sequence of `Set` and `Remove`
calls, every key bound in the mapping holds a value tagged `STRING`, `LIST` or `MAP`, and
`GetAtIndex` never returns `InvalidValueType`, whatever the key, the index and the clock
reading. -/
theorem Reachable_tags (s : store) (hr : Reachable s) (key : String) (index : Any)
    (now : Int) :
    (∀ v, s.tbl.lookup key = some v → v.Typ = .STRING ∨ v.Typ = .LIST ∨ v.Typ = .MAP) ∧
      (s.GetAtIndex key index now).1 ≠ .error .ErrInvalidValueType := by
  have htag := fun v hv => ReachableVia_validTag _ s hr key v hv
  refine ⟨htag, ?_⟩
  cases hk : s.tbl.lookup key with
  | none =>
    unfold store.GetAtIndex
    rw [hk]
    exact fun h => by cases h
  | some v =>
    rw [GetAtIndex_of_lookup s key index now v hk]
    split_ifs
    · exact fun h => by cases h
    · exact getItemAtIndex_ne_InvalidValueType v index (htag v hk)

/-- C18, applied to the store of the test suite. -/
theorem Reachable_tags_witness :
    Reachable (testStore 5) ∧
      (∀ v, (testStore 5).tbl.lookup "map" = some v →
        v.Typ = .STRING ∨ v.Typ = .LIST ∨ v.Typ = .MAP) ∧
      ((testStore 5).GetAtIndex "map" (.int 1) 5).1 ≠ .error .ErrInvalidValueType :=
  ⟨testStore_Reachable 5, Reachable_tags (testStore 5) (testStore_Reachable 5) "map" (.int 1) 5⟩

/-- C19: the read operations leave the store as it is: the store after `Keys()`, `Get(key)`
or `GetAtIndex(key, index)` is the store before the call, whether the call succeeds or fails
and whatever the clock reads, so no read evicts an expired entry. -/
theorem reads_leave_store (s : store) (key : String) (index : Any) (now : Int) :
    (s.Keys now).2 = s ∧ (s.Get key).2 = s ∧ (s.GetAtIndex key index now).2 = s := by
  refine ⟨rfl, ?_, ?_⟩
  · unfold store.Get
    cases s.tbl.lookup key <;> rfl
  · unfold store.GetAtIndex
    cases s.tbl.lookup key with
    | none => rfl
    | some v =>
      dsimp only
      split_ifs <;> rfl

/-- C20: when `Set` fails, the error is `InvalidTTL` or `InvalidValueType` and the store is
exactly the store before the call, so `Get` returns for every key what it returned before. -/
theorem Set_failure_leaves_store (s : store) (key : String) (value : Any) (ttl now : Int)
    (e : Err) (h : (s.Set key value ttl now).1 = .error e) :
    (e = .ErrInvalidTTL ∨ e = .ErrInvalidValueType) ∧
      (s.Set key value ttl now).2 = s ∧
      ∀ k, ((s.Set key value ttl now).2.Get k).1 = (s.Get k).1 := by
  have hboth : (e = .ErrInvalidTTL ∨ e = .ErrInvalidValueType) ∧
      (s.Set key value ttl now).2 = s := by
    rw [Set_eq] at h ⊢
    by_cases h1 : ttl < 0
    · rw [if_pos h1] at h ⊢
      cases h
      exact ⟨Or.inl rfl, rfl⟩
    · rw [if_neg h1] at h ⊢
      by_cases h2 : value.kind = Kind.String ∨ value.kind = Kind.Slice ∨
          (value.kind = Kind.Map ∧ value.keyKind = Kind.String)
      · rw [if_pos h2] at h
        cases h
      · rw [if_neg h2] at h ⊢
        cases h
        exact ⟨Or.inr rfl, rfl⟩
  refine ⟨hboth.1, hboth.2, fun k => ?_⟩
  rw [hboth.2]

/-- C20, applied to a `Set` of the nil value on the key `"list"` of the test suite's store:
the list is still there. -/
theorem Set_failure_leaves_store_witness :
    ((testStore 5).Set "list" .nil 0 7).1 = .error .ErrInvalidValueType ∧
      ((testStore 5).Set "list" .nil 0 7).2 = testStore 5 ∧
      (((testStore 5).Set "list" .nil 0 7).2.Get "list").1 = .ok testListValue :=
  have h := Set_failure_leaves_store (testStore 5) "list" .nil 0 7 .ErrInvalidValueType rfl
  ⟨rfl, h.2.1, (h.2.2 "list").trans rfl⟩

end db
